import Mathlib

/-!
Verification of the GooseHDF5 path-traversal / diff engine.

This file shallowly embeds the core of `GooseHDF5/__init__.py`:
the traversal functions (`getdatasets` and its specializations
`_getpaths`, `_getpaths_maxdepth`, `_getpaths_fold`,
`_getpaths_fold_maxdepth`, as well as `getgroups` and `getdatapaths`),
the equality predicate (`_equal_value`, `_equal`, `equal`) and the diff
engine (`_compare_paths`, `compare`, `compare_rename`, `compare_allow`).

Modelling conventions:
* An HDF5 node is a `HObj` (dataset with a typed body, or group with
  children); children are an ordered association forest `HForest`
  (h5py iterates keys in stored name order).
* Array values are `NDArr`: a dtype tag (numpy dtype classes
  `floating` / `integer` / `bool_` / other), a shape, and the flattened
  data as rationals (bools as 0/1).  Attribute values are `Val`:
  either a python `str` or an `NDArr`.
* Paths are strings.  `len(path.split("/")) - 1`, the quantity the
  source uses as depth, equals the number of `'/'` characters of the
  path, which is how `pathDepth` is written.  Roots handed to the
  model are assumed to be already-normalised paths, on which
  `posixpath.normpath(posixpath.join("/", p))` only prepends a `/`
  when missing (`mabspath`).
* Fallible code (`KeyError`, `AttributeError`, `OSError`) is modelled
  with `Except String`; python generators consumed by `list(...)`
  propagate exceptions before producing a list, so a raising traversal
  is a plain `.error`.
* The `uuid.uuid4()` draw inside `_compare_paths` is passed in as an
  explicit `symbol` argument (the source uses `"/..." + str(uuid4())`,
  a string with exactly one leading slash and no trailing slash).
* `list(set(xs))` enumerates in an unspecified order; it is modelled
  as `xs.dedup` (first-occurrence order).  All facts proved below are
  insensitive to that choice of order.
-/

namespace G5

/-- Tag standing for the numpy dtype classes the source dispatches on
(`np.issubdtype(_, np.floating)`, `np.issubdtype(_, np.integer)`,
`np.bool_`, anything else). -/
inductive DType where
  | float
  | int
  | bool
  | other
deriving DecidableEq, Repr

/-- A materialised array: dtype tag, shape, and the flattened data. -/
structure NDArr where
  dtype : DType
  shape : List Nat
  data : List ℚ
deriving DecidableEq, Repr

/-- `ndarray.size` is the number of elements of the flattened data. -/
def NDArr.size (a : NDArr) : Nat := a.data.length

/-- An attribute value as h5py returns it: a python `str` or an array. -/
inductive Val where
  | vstr (s : String)
  | varr (a : NDArr)
deriving DecidableEq, Repr

mutual
/-- An HDF5 object: dataset (attributes + body) or group (attributes +
children). -/
inductive HObj where
  | dataset (attrs : List (String × Val)) (body : NDArr)
  | group (attrs : List (String × Val)) (children : HForest)
/-- Ordered children of a group, keyed by link name. -/
inductive HForest where
  | nil
  | cons (key : String) (obj : HObj) (rest : HForest)
end

/-- Build a forest from an association list (used for concrete files). -/
def HForest.ofList : List (String × HObj) → HForest
  | [] => .nil
  | (k, o) :: rest => .cons k o (HForest.ofList rest)

/-- `len(path.split("/")) - 1`: for the single-character separator this
is the number of `'/'` characters in the path. -/
def pathDepth (p : String) : Nat := p.toList.count '/'

/-- `join(prefix, key)` of the source (posixpath.join with the later
component stripped of slashes) for a slash-free key: `prefix + "/" +
key`, except that a `"/"` prefix already ends in the separator. -/
def join (pre key : String) : String :=
  if pre = "/" then "/" ++ key else pre ++ "/" ++ key

/-- `q.startswith(p)` (equivalently: is `p` a character prefix of
`s`), computed on the character lists. -/
def strPre (p s : String) : Bool := p.data.isPrefixOf s.data

/-- `s[n:]`: drop the first `n` characters. -/
def sdrop (s : String) (n : Nat) : String := String.mk (s.data.drop n)

/-- `s.split("/")` for the single-character separator: split the
character list at every `'/'`. -/
def splitSlash : List Char → List String
  | [] => [""]
  | c :: cs =>
    if c = '/' then "" :: splitSlash cs
    else
      match splitSlash cs with
      | [] => [String.mk [c]]
      | s :: rest => String.mk (c :: s.data) :: rest

/-- `path.split(symbol)[0]`: the part of the string before the first
occurrence of `symbol` (the whole string when `symbol` is absent). -/
def beforeSub (pat : List Char) : List Char → List Char
  | [] => []
  | c :: cs => if pat.isPrefixOf (c :: cs) then [] else c :: beforeSub pat cs

/-- String form of `beforeSub`. -/
def splitHead (symbol path : String) : String :=
  String.mk (beforeSub symbol.data path.data)

/-- `abspath` of the source, `posixpath.normpath(posixpath.join("/",
path))`, restricted to already-normalised inputs: prepend `/` if
missing. -/
def mabspath (p : String) : String :=
  if strPre "/" p then p else "/" ++ p

/-- `s.strip("/")`: drop slashes from both ends. -/
def stripSlashes (s : String) : String :=
  String.mk (((s.toList.dropWhile (· = '/')).reverse.dropWhile (· = '/')).reverse)

/-- `join(root, f)` as used on fold entries: posixpath.join of the root
and the slash-stripped entry. -/
def pyjoin (root f : String) : String := join root (stripSlashes f)

/-- The fold preprocessing block shared by `getdatasets` and
`getgroups` (lines 493-498 / 584-589): absolutise every entry and
prefix it with the root when it does not already start with it.  The
block is guarded by `if fold:`, so an empty list passes through. -/
def prepFold (root : String) (fold : List String) : List String :=
  if fold = [] then []
  else (fold.map mabspath).map (fun f => if strPre root f then f else pyjoin root f)

/-- Split a normalised absolute path into its nonempty components. -/
def pathComponents (p : String) : List String :=
  (splitSlash p.data).filter (· ≠ "")

/-- Find a key in a forest (h5py group item lookup). -/
def HForest.find : HForest → String → Option HObj
  | .nil, _ => none
  | .cons k o rest, c => if k = c then some o else HForest.find rest c

/-- Navigate an object along path components (`file[path]`). -/
def lookupObj : HObj → List String → Option HObj
  | obj, [] => some obj
  | .group _ ch, c :: rest =>
      match HForest.find ch c with
      | some o => lookupObj o rest
      | none => none
  | .dataset _ _, _ :: _ => none

/-- `file[path]` for an absolute path. -/
def lookupPath (file : HObj) (path : String) : Option HObj :=
  lookupObj file (pathComponents path)

mutual
/-- Loop body of the `iterator` of `_getpaths`: a dataset child yields
its path, a group child is descended. -/
def gdObj (obj : HObj) (path : String) : List String :=
  match obj with
  | .dataset _ _ => [path]
  | .group _ ch => gdForest ch path
/-- The `iterator` of `_getpaths`: loop over the children of a group. -/
def gdForest (f : HForest) (pre : String) : List String :=
  match f with
  | .nil => []
  | .cons key obj rest => gdObj obj (join pre key) ++ gdForest rest pre
end

mutual
/-- Loop body of the `iterator` of `_getpaths_maxdepth`: a dataset
child yields its path; a group child whose path has depth `>=
max_depth` yields `path + fold_symbol` when the recursive iterator at
`max_depth + 1` is nonempty and the bare `path` otherwise, and is not
descended; other group children are descended. -/
def mdObj (sym : String) (obj : HObj) (path : String) (d : Nat) : List String :=
  match obj with
  | .dataset _ _ => [path]
  | .group _ ch =>
      if pathDepth path ≥ d then
        if (mdForest sym ch path (d + 1)).length > 0 then [path ++ sym] else [path]
      else mdForest sym ch path d
/-- The `iterator` of `_getpaths_maxdepth`. -/
def mdForest (sym : String) (f : HForest) (pre : String) (d : Nat) : List String :=
  match f with
  | .nil => []
  | .cons key obj rest => mdObj sym obj (join pre key) d ++ mdForest sym rest pre d
end

mutual
/-- Loop body of the `iterator` of `_getpaths_fold`: a dataset child
yields its path; a group child whose path is in `fold` yields `path +
fold_symbol` and is not descended; other group children are
descended. -/
def foldObj (sym : String) (fold : List String) (obj : HObj) (path : String) : List String :=
  match obj with
  | .dataset _ _ => [path]
  | .group _ ch =>
      if fold.contains path then [path ++ sym] else foldForest sym fold ch path
/-- The `iterator` of `_getpaths_fold`. -/
def foldForest (sym : String) (fold : List String) (f : HForest) (pre : String) : List String :=
  match f with
  | .nil => []
  | .cons key obj rest => foldObj sym fold obj (join pre key) ++ foldForest sym fold rest pre
end

mutual
/-- Loop body of the `iterator` of `_getpaths_fold_maxdepth`: a dataset
child yields its path; a group child at depth `>= max_depth`, or whose
path is in `fold`, yields `path + fold_symbol` unconditionally and is
not descended; other group children are descended. -/
def fmdObj (sym : String) (fold : List String) (obj : HObj) (path : String) (d : Nat) :
    List String :=
  match obj with
  | .dataset _ _ => [path]
  | .group _ ch =>
      if pathDepth path ≥ d then [path ++ sym]
      else if fold.contains path then [path ++ sym]
      else fmdForest sym fold ch path d
/-- The `iterator` of `_getpaths_fold_maxdepth`. -/
def fmdForest (sym : String) (fold : List String) (f : HForest) (pre : String) (d : Nat) :
    List String :=
  match f with
  | .nil => []
  | .cons key obj rest => fmdObj sym fold obj (join pre key) d ++ fmdForest sym fold rest pre d
end

/-- `getdatasets(file, root, max_depth, fold, fold_symbol)`, with the
result of the returned iterator materialised by `list(...)`:
after absolutising the fold list, dispatch on the truthiness of
`max_depth` and `fold` to one of the four specializations.  A missing
root raises `KeyError`; a dataset root raises `AttributeError` when the
inner iterator calls `.keys()` on it (before `list` returns
anything). -/
def getdatasets (file : HObj) (root : String) (max_depth : Option Nat) (fold : List String)
    (fold_symbol : String) : Except String (List String) :=
  let root := mabspath root
  let fold' := prepFold root fold
  match lookupPath file root with
  | none => .error "KeyError"
  | some (.dataset _ _) => .error "AttributeError: dataset root has no keys"
  | some (.group _ ch) =>
    match max_depth with
    | some d =>
      if d ≠ 0 then
        if fold' ≠ [] then .ok (fmdForest fold_symbol fold' ch root d)
        else .ok (mdForest fold_symbol ch root d)
      else
        if fold' ≠ [] then .ok (foldForest fold_symbol fold' ch root)
        else .ok (gdForest ch root)
    | none =>
      if fold' ≠ [] then .ok (foldForest fold_symbol fold' ch root)
      else .ok (gdForest ch root)

mutual
/-- `group.visit` restricted to groups: collect every descendant group
(top-down, children in stored order) with its absolute path and its
attributes (the source re-reads `file[key].attrs` afterwards). -/
def vgObj (obj : HObj) (path : String) : List (String × List (String × Val)) :=
  match obj with
  | .dataset _ _ => []
  | .group a ch => (path, a) :: vgForest ch path
/-- Loop of `vgObj` over the children of a group. -/
def vgForest (f : HForest) (pre : String) : List (String × List (String × Val)) :=
  match f with
  | .nil => []
  | .cons key obj rest => vgObj obj (join pre key) ++ vgForest rest pre
end

/-- `"/".join` of path components (`String.intercalate` written out so
it evaluates in the kernel). -/
def joinComponents : List String → String
  | [] => ""
  | [x] => x
  | x :: rest => x ++ "/" ++ joinComponents rest

/-- Truncation used by the `max_depth` postprocessing of `getgroups`:
`posixpath.join("/", *path.split("/")[: k + 1])` keeps the first `k`
components of the absolute path. -/
def truncPath (p : String) (k : Nat) : String :=
  "/" ++ joinComponents ((pathComponents p).take k)

/-- The `fold` postprocessing of `getgroups`: the loop `for f in fold:
if path.startswith(f): keys[i] = f + fold_symbol` leaves the last
matching entry in place. -/
def applyFold (fold : List String) (sym : String) (p : String) : String :=
  match (fold.filter (fun f => strPre f p)).getLast? with
  | some f => f ++ sym
  | none => p

/-- `getgroups(file, root, has_attrs, max_depth, fold, fold_symbol)`:
collect all groups below the root via `visit`, keep those with
attributes if requested, then fold by depth (relative to the root:
`n = len(list(filter(None, root.split("/"))))`) and by the fold list,
deduplicating after each folding pass.  The source guards the second
pass with `fold is not None`; with `None` and `[]` collapsed to `[]`
here, that pass is skipped for `[]` (where it would only dedup). -/
def getgroups (file : HObj) (root : String) (has_attrs : Bool) (max_depth : Option Nat)
    (fold : List String) (fold_symbol : String) : Except String (List String) :=
  let root := mabspath root
  let fold' := prepFold root fold
  match lookupPath file root with
  | none => .error "KeyError"
  | some (.dataset _ _) => .error "AttributeError: dataset root has no visit"
  | some (.group _ ch) =>
    let keys0 := vgForest ch root
    let keys1 := if has_attrs then keys0.filter (fun pa => pa.2 ≠ []) else keys0
    let keys2 := keys1.map Prod.fst
    let keys3 := match max_depth with
      | none => keys2
      | some md =>
        let n := (pathComponents root).length
        (keys2.map (fun p =>
          if pathDepth p > n + md then truncPath p (n + md) ++ fold_symbol else p)).dedup
    let keys4 := if fold' ≠ [] then (keys3.map (applyFold fold' fold_symbol)).dedup else keys3
    .ok keys4

/-- `getdatapaths`: datasets plus groups that carry attributes,
deduplicated (`list(set(...))`). -/
def getdatapaths (file : HObj) (root : String) (max_depth : Option Nat) (fold : List String)
    (fold_symbol : String) : Except String (List String) :=
  match getdatasets file root max_depth fold fold_symbol with
  | .error e => .error e
  | .ok ds =>
    match getgroups file root true max_depth fold fold_symbol with
    | .error e => .error e
    | .ok gs => .ok ((ds ++ gs).dedup)

/-! ## Value equality (`_equal_value`, `_equal`, `equal`) -/

/-- Default absolute tolerance of `np.allclose`. -/
def atol : ℚ := 1 / 10 ^ 8

/-- Default relative tolerance of `np.allclose`. -/
def rtol : ℚ := 1 / 10 ^ 5

/-- `np.allclose(a, b)` on same-length flattened data:
element-wise `|a - b| <= atol + rtol * |b|`. -/
def allclose (xa xb : List ℚ) : Bool :=
  (xa.zip xb).all fun p => |p.1 - p.2| ≤ atol + rtol * |p.2|

/-- `_equal_value(a, b, close)`: the multi-branch value comparison.
Strings compare exactly and never equal non-strings; a non-string
compared against a string raises (`str` has no `.size`).  Arrays first
compare size and shape, then dispatch on the dtype of `a`: floats use
closeness (skipping the float check of `b` when `close`), integers use
exact equality unless `close`, booleans exact equality, and any other
dtype scalar/element-wise equality (closeness when `close`). -/
def _equal_value (a b : Val) (close : Bool) : Except String Bool :=
  match a with
  | .vstr sa =>
    match b with
    | .vstr sb => .ok (sa == sb)
    | .varr _ => .ok false
  | .varr aa =>
    match b with
    | .vstr _ => .error "AttributeError: str has no size"
    | .varr bb =>
      if aa.size ≠ bb.size then .ok false
      else if aa.shape ≠ bb.shape then .ok false
      else if aa.dtype = .float then
        (if close then .ok (allclose aa.data bb.data)
         else if bb.dtype ≠ .float then .ok false
         else .ok (allclose aa.data bb.data))
      else if aa.dtype = .int then
        (if close then .ok (allclose aa.data bb.data)
         else if bb.dtype ≠ .int then .ok false
         else if aa.shape ≠ bb.shape then .ok false
         else .ok (aa.data == bb.data))
      else if aa.dtype = .bool then
        (if bb.dtype ≠ .bool then .ok false
         else if aa.shape ≠ bb.shape then .ok false
         else .ok (aa.data == bb.data))
      else if aa.size = 1 then .ok (aa.data == bb.data)
      else if close then .ok (allclose aa.data bb.data)
      else .ok (aa.data == bb.data)

/-- The attributes of an object (`.attrs` of group and dataset). -/
def HObj.attrs : HObj → List (String × Val)
  | .dataset a _ => a
  | .group a _ => a

/-- `.dtype` of an attribute value: arrays have one, python `str`
raises. -/
def vdtype : Val → Except String DType
  | .vstr _ => .error "AttributeError: str has no dtype"
  | .varr a => .ok a.dtype

/-- The first loop of `_equal` over `a.attrs`.  Per key: missing in
`b.attrs` returns `False`; under `matching_dtype` a dtype mismatch
returns `False`; under `shallow` it returns `True` right away (the
early `return True` inside the loop body); otherwise an unequal value
returns `False`.  `none` means the loop fell through. -/
def _equal_attrs_loop (battrs : List (String × Val)) (matching_dtype shallow close : Bool) :
    List (String × Val) → Except String (Option Bool)
  | [] => .ok none
  | (key, va) :: rest =>
    match battrs.lookup key with
    | none => .ok (some false)
    | some vb =>
      let afterDtype : Except String (Option Bool) :=
        if shallow then .ok (some true)
        else
          match _equal_value va vb close with
          | .error e => .error e
          | .ok true => _equal_attrs_loop battrs matching_dtype shallow close rest
          | .ok false => .ok (some false)
      if matching_dtype then
        match vdtype va, vdtype vb with
        | .ok da, .ok db => if da ≠ db then .ok (some false) else afterDtype
        | .error e, _ => .error e
        | .ok _, .error e => .error e
      else afterDtype

/-- `_equal(a, b, attrs, matching_dtype, shallow, close)`: attribute
comparison (both loops), then group/group short-circuit, the
`Not a Dataset` error, the body dtype check, the shallow
short-circuit, and finally `_equal_value` on the bodies. -/
def _equal (a b : HObj) (attrs matching_dtype shallow close : Bool) : Except String Bool :=
  let step1 : Except String (Option Bool) :=
    if attrs then
      match _equal_attrs_loop b.attrs matching_dtype shallow close a.attrs with
      | .error e => .error e
      | .ok (some r) => .ok (some r)
      | .ok none =>
        if b.attrs.any (fun kv => (a.attrs.lookup kv.1).isNone) then .ok (some false)
        else .ok none
    else .ok none
  match step1 with
  | .error e => .error e
  | .ok (some r) => .ok r
  | .ok none =>
    match a, b with
    | .group _ _, .group _ _ => .ok true
    | .dataset _ ba, .dataset _ bb =>
      if matching_dtype then
        (if ba.dtype ≠ bb.dtype then .ok false
         else if shallow then .ok true
         else _equal_value (.varr ba) (.varr bb) close)
      else if shallow then .ok true
      else _equal_value (.varr ba) (.varr bb) close
    | _, _ => .error "OSError: Not a Dataset"

/-- `equal(source, dest, source_dataset, dest_dataset, ...)` with
`root=None` (as in every use below): default the destination path to
the source path, check presence of both paths, then `_equal`. -/
def equal (source dest : HObj) (source_dataset : String) (dest_dataset : Option String)
    (attrs matching_dtype shallow close : Bool) : Except String Bool :=
  let dd := match dest_dataset with
    | none => source_dataset
    | some d => d
  match lookupPath source source_dataset with
  | none => .error "OSError: source_dataset not in source"
  | some oa =>
    match lookupPath dest dd with
    | none => .error "OSError: dest_dataset not in dest"
    | some ob => _equal oa ob attrs matching_dtype shallow close

/-! ## The diff engine (`_compare_paths`, `compare`, `compare_rename`) -/

/-- Lexicographic order on the character lists (the ordering `np.sort`
uses on `str` values). -/
def charLe : List Char → List Char → Bool
  | [], _ => true
  | _ :: _, [] => false
  | a :: as, b :: bs => if a < b then true else if b < a then false else charLe as bs

/-- Lexicographic order on strings. -/
def strLe (a b : String) : Bool := charLe a.data b.data

/-- Insert into a sorted list of strings (ordering as `np.sort` on the
string values). -/
def insertStr (x : String) : List String → List String
  | [] => [x]
  | y :: ys => if strLe x y then x :: y :: ys else y :: insertStr x ys

/-- Sort a list of strings. -/
def sortStr (l : List String) : List String := l.foldr insertStr []

/-- `np.setdiff1d(a, b)`: sorted unique values of `a` not in `b`. -/
def np_setdiff1d (a b : List String) : List String :=
  sortStr ((a.filter (fun x => !b.contains x)).dedup)

/-- `np.intersect1d(a, b)`: sorted unique common values. -/
def np_intersect1d (a b : List String) : List String :=
  sortStr ((a.filter (fun x => b.contains x)).dedup)

/-- `np.unique(a)`: sorted unique values. -/
def np_unique (a : List String) : List String := sortStr a.dedup

/-- `join(f, symbol, root=True)` as used on fold entries in
`_compare_paths`: `posixpath.join("/", f, symbol.strip("/"))`. -/
def foldMarker (f symbol : String) : String :=
  mabspath f ++ "/" ++ stripSlashes symbol

/-- The marker-removal loop of `_compare_paths`:
`for path in paths: if path in fold: paths.remove(path);
fold_acc.append(path.split(symbol)[0])`, with python's for-loop
semantics of iterating by index over the list being mutated (after a
removal the element shifted into the current position is skipped).
Returns the remaining list and the collected folded group paths. -/
def pyFoldRemoveGo (foldm : List String) (symbol : String) :
    Nat → List String → Nat → List String → List String × List String
  | 0, lst, _, facc => (lst, facc)
  | fuel + 1, lst, i, facc =>
    if h : i < lst.length then
      let path := lst.get ⟨i, h⟩
      if foldm.contains path then
        pyFoldRemoveGo foldm symbol fuel (lst.erase path) (i + 1)
          (facc ++ [splitHead symbol path])
      else pyFoldRemoveGo foldm symbol fuel lst (i + 1) facc
    else (lst, facc)

/-- Entry point of the loop: start at index `0` with no collected
paths.  The fuel `lst.length` dominates the number of iterations,
since `len(lst) - i` strictly shrinks every step. -/
def pyFoldRemove (foldm : List String) (symbol : String) (lst : List String) :
    List String × List String :=
  pyFoldRemoveGo foldm symbol lst.length lst 0 []

/-- Result of `_compare_paths`: the two path lists with fold markers
removed, and the folded group paths per side. -/
structure PathsResult where
  paths_a : List String
  paths_b : List String
  fold_a : List String
  fold_b : List String
deriving DecidableEq, Repr

/-- `_compare_paths(a, b, paths_a, paths_b, attrs, max_depth, fold)`:
default `paths_b` to `paths_a` when only the latter is given, read
missing lists from `getdatapaths` (or `getdatasets` when not `attrs`)
with the drawn `symbol` as fold symbol, then remove the fold markers
from both lists, collecting the folded group paths. -/
def _compare_paths (a b : HObj) (paths_a? paths_b? : Option (List String)) (attrs : Bool)
    (max_depth : Option Nat) (fold : List String) (symbol : String) :
    Except String PathsResult :=
  let paths_b? := if paths_b?.isNone ∧ paths_a?.isSome then paths_a? else paths_b?
  let read (file : HObj) (given : Option (List String)) : Except String (List String) :=
    match given with
    | some p => .ok p
    | none =>
      if attrs then getdatapaths file "/" max_depth fold symbol
      else getdatasets file "/" max_depth fold symbol
  match read a paths_a? with
  | .error e => .error e
  | .ok pa =>
    match read b paths_b? with
    | .error e => .error e
    | .ok pb =>
      if fold ≠ [] then
        let foldm := fold.map (fun f => foldMarker f symbol)
        let ra := pyFoldRemove foldm symbol pa
        let rb := pyFoldRemove foldm symbol pb
        .ok ⟨ra.1, rb.1, ra.2, rb.2⟩
      else .ok ⟨pa, pb, [], []⟩

/-- Result of `compare`: the four difference lists (dictionary keys
`"<-"`, `"->"`, `"!="`, `"=="`) and, under `list_folded`, the folded
groups (key `"??"`). -/
structure CompareResult where
  toA : List String
  toB : List String
  ne : List String
  eq : List String
  folded : Option (List String)
deriving DecidableEq, Repr

/-- The comparison loop of `compare` over the common paths: partition
by the verdict of `equal`, preserving order. -/
def compareLoop (a b : HObj) (attrs matching_dtype shallow close : Bool) :
    List String → Except String (List String × List String)
  | [] => .ok ([], [])
  | p :: rest =>
    match equal a b p none attrs matching_dtype shallow close with
    | .error e => .error e
    | .ok v =>
      match compareLoop a b attrs matching_dtype shallow close rest with
      | .error e => .error e
      | .ok (nel, eql) => if v then .ok (nel, p :: eql) else .ok (p :: nel, eql)

/-- `compare(a, b, ...)`: resolve the path lists via `_compare_paths`,
compute the exclusive sides with `np.setdiff1d`, compare the common
paths (`np.intersect1d`) with `equal`, and report the folded groups
under `"??"` when `list_folded`. -/
def compare (a b : HObj) (paths_a? paths_b? : Option (List String))
    (attrs matching_dtype shallow only_datasets : Bool) (max_depth : Option Nat)
    (fold : List String) (list_folded close : Bool) (symbol : String) :
    Except String CompareResult :=
  match _compare_paths a b paths_a? paths_b? (if only_datasets then false else attrs)
      max_depth fold symbol with
  | .error e => .error e
  | .ok pr =>
    let not_in_b := np_setdiff1d pr.paths_a pr.paths_b
    let not_in_a := np_setdiff1d pr.paths_b pr.paths_a
    let inboth := np_intersect1d pr.paths_a pr.paths_b
    match compareLoop a b attrs matching_dtype shallow close inboth with
    | .error e => .error e
    | .ok r =>
      .ok ⟨not_in_a, not_in_b, r.1, r.2,
        if list_folded then some (np_unique (pr.fold_a ++ pr.fold_b)) else none⟩

/-- Result of the renamed-pair comparison (`"!="` / `"=="` lists). -/
structure RenResult where
  ne : List String
  eq : List String
deriving DecidableEq, Repr

/-- Literal rename resolution of `compare_rename`: each pair must be
present in the respective list, else `OSError("Renamed paths must be
present")` — raised before any value comparison. -/
def literalResolve (paths_a paths_b : List String) :
    List (String × String) → Except String (List String × List String)
  | [] => .ok ([], [])
  | (pa, pb) :: rest =>
    if !paths_a.contains pa || !paths_b.contains pb then
      .error "OSError: Renamed paths must be present"
    else
      match literalResolve paths_a paths_b rest with
      | .error e => .error e
      | .ok (ra, rb) => .ok (pa :: ra, pb :: rb)

/-- One regex rename pair of `compare_rename`, modelled for
regex-metacharacter-free patterns: `re.match(rf"({pattern_a})(.*)",
path_a)` matches exactly when `pattern_a` is a character prefix of
`path_a`, and `re.sub(..., rf"{pattern_b}\2", path_a)` rewrites it to
`pattern_b` followed by the remaining characters.  A rewritten path
absent from `paths_b` is skipped (`continue`), without error. -/
def regexResolvePair (paths_a paths_b : List String) (pa pb : String) :
    List (String × String) :=
  paths_a.filterMap (fun path_a =>
    if strPre pa path_a then
      (if paths_b.contains (pb ++ sdrop path_a pa.length) then
        some (path_a, pb ++ sdrop path_a pa.length)
      else none)
    else none)

/-- The regex resolution loop over all rename pairs, appending in
order. -/
def regexResolve (paths_a paths_b : List String) :
    List (String × String) → List (String × String)
  | [] => []
  | (pa, pb) :: rest =>
    regexResolvePair paths_a paths_b pa pb ++ regexResolve paths_a paths_b rest

/-- The loop of `compare_rename` over resolved pairs: compare
`path_a` in `a` against `path_b` in `b`, partitioning both sides. -/
def renameLoop (a b : HObj) (attrs matching_dtype shallow close : Bool) :
    List (String × String) → Except String (RenResult × RenResult)
  | [] => .ok (⟨[], []⟩, ⟨[], []⟩)
  | (pa, pb) :: rest =>
    match equal a b pa (some pb) attrs matching_dtype shallow close with
    | .error e => .error e
    | .ok v =>
      match renameLoop a b attrs matching_dtype shallow close rest with
      | .error e => .error e
      | .ok (ra, rb) =>
        if v then .ok (⟨ra.ne, pa :: ra.eq⟩, ⟨rb.ne, pb :: rb.eq⟩)
        else .ok (⟨pa :: ra.ne, ra.eq⟩, ⟨pb :: rb.ne, rb.eq⟩)

/-- `compare_rename(a, b, rename, ...)`.  With `rename=None` it is
`compare` plus empty renamed results.  Otherwise: resolve the path
lists, resolve the rename pairs (literally or by regex), drop renamed
paths from both lists (`~np.in1d`), run `compare` on the rest (the
inner call draws its own fold symbol, `symbol2`), compare the renamed
pairs, and overwrite `"??"` with the folded groups when
`list_folded`. -/
def compare_rename (a b : HObj) (rename : Option (List (String × String)))
    (paths_a? paths_b? : Option (List String))
    (attrs matching_dtype shallow regex only_datasets : Bool) (max_depth : Option Nat)
    (fold : List String) (list_folded close : Bool) (symbol symbol2 : String) :
    Except String (CompareResult × RenResult × RenResult) :=
  match rename with
  | none =>
    match compare a b paths_a? paths_b? attrs matching_dtype shallow false
        max_depth fold list_folded close symbol2 with
    | .error e => .error e
    | .ok r => .ok (r, ⟨[], []⟩, ⟨[], []⟩)
  | some ren =>
    match _compare_paths a b paths_a? paths_b? (if only_datasets then false else attrs)
        max_depth fold symbol with
    | .error e => .error e
    | .ok pr =>
      let resolved : Except String (List String × List String) :=
        if !regex then literalResolve pr.paths_a pr.paths_b ren
        else
          .ok ((regexResolve pr.paths_a pr.paths_b ren).map Prod.fst,
               (regexResolve pr.paths_a pr.paths_b ren).map Prod.snd)
      match resolved with
      | .error e => .error e
      | .ok rab =>
        let keep_a := pr.paths_a.filter (fun p => !rab.1.contains p)
        let keep_b := pr.paths_b.filter (fun p => !rab.2.contains p)
        match compare a b (some keep_a) (some keep_b) attrs matching_dtype shallow false
            max_depth fold list_folded close symbol2 with
        | .error e => .error e
        | .ok ret0 =>
          match renameLoop a b attrs matching_dtype shallow close (rab.1.zip rab.2) with
          | .error e => .error e
          | .ok rr =>
            .ok (⟨ret0.toA, ret0.toB, ret0.ne, ret0.eq,
                  if list_folded then some (np_unique (pr.fold_a ++ pr.fold_b))
                  else ret0.folded⟩,
                 rr.1, rr.2)

/-! ## `compare_allow` with python object identity

`compare_allow` does `ret = comparison.copy()` (a shallow dict copy:
a fresh key map over the *same* list objects) and then calls
`ret[key].remove(path)`, mutating those shared lists.  To express
this, list objects live in a heap indexed by `Nat` references and a
comparison dictionary maps keys to references. -/

/-- The python heap of list objects, by reference. -/
def Heap := Nat → List String

/-- Write one heap cell. -/
def Heap.write (h : Heap) (i : Nat) (l : List String) : Heap :=
  fun j => if j = i then l else h j

/-- The inner loop of `compare_allow` on one list object:
`for path in paths: if path in lst: lst.remove(path)` (one first
occurrence removed per requested path). -/
def removeAllowed (l : List String) (paths : List String) : List String :=
  paths.foldl (fun cur p => if cur.contains p then cur.erase p else cur) l

/-- The outer loop of `compare_allow`: for each key, look up the list
object referenced by the (copied) dictionary and mutate it in place;
a key absent from the dictionary raises `KeyError`. -/
def allowLoop (paths : List String) (ret : List (String × Nat)) :
    List String → Heap → Except String Heap
  | [], h => .ok h
  | k :: ks, h =>
    match ret.lookup k with
    | none => .error "KeyError"
    | some i => allowLoop paths ret ks (h.write i (removeAllowed (h i) paths))

/-- `compare_allow(comparison, paths, keys, root)`: shallow-copy the
dictionary, optionally prefix the paths with the root
(`join(root, path, root=True)`), then remove every allowed path from
the list objects under the requested keys.  Returns the new
dictionary (the same key-to-reference map) together with the
post-call heap. -/
def compare_allow (h : Heap) (comparison : List (String × Nat)) (paths : List String)
    (keys : List String) (root : Option String) :
    Except String (List (String × Nat) × Heap) :=
  let paths := match root with
    | none => paths
    | some r => paths.map (fun p => mabspath r ++ "/" ++ stripSlashes p)
  match allowLoop paths comparison keys h with
  | .error e => .error e
  | .ok h2 => .ok (comparison, h2)

/-! ## Spec-side reference traversal

The specification describes the depth used for `max_depth` folding as
the separator count *beyond the root* ("depth = separator count beyond
root").  The reference traversal below follows those words: it is the
same algorithm as `_getpaths_maxdepth`, except that the folding test
subtracts the number of root components
(`n = len(list(filter(None, root.split("/"))))`, as `getgroups`
does). -/

mutual
/-- Spec-side variant of `mdObj`: fold when the depth *relative to the
root* (absolute depth minus the `n` root components) reaches
`max_depth`. -/
def mdObjRel (sym : String) (n : Nat) (obj : HObj) (path : String) (d : Nat) : List String :=
  match obj with
  | .dataset _ _ => [path]
  | .group _ ch =>
      if pathDepth path - n ≥ d then
        if (mdForestRel sym n ch path (d + 1)).length > 0 then [path ++ sym] else [path]
      else mdForestRel sym n ch path d
/-- Spec-side variant of `mdForest`. -/
def mdForestRel (sym : String) (n : Nat) (f : HForest) (pre : String) (d : Nat) : List String :=
  match f with
  | .nil => []
  | .cons key obj rest => mdObjRel sym n obj (join pre key) d ++ mdForestRel sym n rest pre d
end

/-- Spec-side reference for `getdatasets` with a `max_depth` fold spec
and no fold list: identical dispatch, but depth measured relative to
the root. -/
def traverse_reldepth (file : HObj) (root : String) (max_depth : Option Nat)
    (fold_symbol : String) : Except String (List String) :=
  let root := mabspath root
  let n := (pathComponents root).length
  match lookupPath file root with
  | none => .error "KeyError"
  | some (.dataset _ _) => .error "AttributeError: dataset root has no keys"
  | some (.group _ ch) =>
    match max_depth with
    | some d =>
      if d ≠ 0 then .ok (mdForestRel fold_symbol n ch root d)
      else .ok (gdForest ch root)
    | none => .ok (gdForest ch root)

/-! ## Concrete inputs used by the theorems below -/

/-- Shorthand: a plain one-dimensional dataset without attributes. -/
def mkds (d : DType) (xs : List ℚ) : HObj := .dataset [] ⟨d, [xs.length], xs⟩

/-- Shorthand: a plain group without attributes. -/
def mkgrp (l : List (String × HObj)) : HObj := .group [] (.ofList l)

/-- A file holding a single *empty* group `/g`. -/
def c1file : HObj := mkgrp [("g", .group [] .nil)]

/-- A file holding the single dataset `/x/g/d`. -/
def c3file : HObj := mkgrp [("x", mkgrp [("g", mkgrp [("d", mkds .int [5])])])]

/-- File `a` of the C2 counterexample: dataset `/d` of integer dtype
with one attribute `x`. -/
def c2a : HObj := mkgrp [("d", .dataset [("x", .varr ⟨.int, [], [1]⟩)] ⟨.int, [1], [5]⟩)]

/-- File `b` of the C2 counterexample: dataset `/d` of *float* dtype
whose attributes are `x` (same dtype as in `a`) plus an extra `y`
missing from `a`. -/
def c2b : HObj :=
  mkgrp [("d", .dataset [("x", .varr ⟨.int, [], [2]⟩), ("y", .varr ⟨.int, [], [3]⟩)]
    ⟨.float, [1], [5]⟩)]

/-- Files for the C4 witness. -/
def c4a : HObj := mkgrp [("u", mkds .int [1]), ("v", mkds .int [2])]

/-- Second file for the C4 witness. -/
def c4b : HObj := mkgrp [("v", mkds .int [3]), ("w", mkds .int [4])]

/-- File `a` of the rename scenario: dataset `/run_1/result`. -/
def c7a : HObj := mkgrp [("run_1", mkgrp [("result", mkds .int [1, 2, 3])])]

/-- File `b` of the rename scenario: dataset `/job_1/result` with the
same content. -/
def c7b : HObj := mkgrp [("job_1", mkgrp [("result", mkds .int [1, 2, 3])])]

/-- The C9 failing input: two groups `/g1` and `/g2`, each holding one
dataset, both requested to be folded — their two fold markers are
adjacent in the traversal output. -/
def c9file : HObj := mkgrp [("g1", mkgrp [("x", mkds .int [1])]), ("g2", mkgrp [("y", mkds .int [2])])]

/-- The comparison dictionary of the C10 witness (the four standard
keys referencing four distinct list objects). -/
def c10dict : List (String × Nat) := [("->", 0), ("<-", 1), ("==", 2), ("!=", 3)]

/-- The heap of the C10 witness: the list object `3` (under `"!="`)
holds `["/foo/bar"]`, the others are empty. -/
def c10heap : Heap := fun i => if i = 3 then ["/foo/bar"] else []

/-! ## Path arithmetic lemmas -/

theorem pathDepth_append (p q : String) : pathDepth (p ++ q) = pathDepth p + pathDepth q := by
  simp [pathDepth, String.data_append, List.count_append]

theorem pathDepth_join (p k : String) :
    pathDepth (join p k) = (if p = "/" then 1 else pathDepth p + 1) + pathDepth k := by
  unfold join
  split
  · rw [pathDepth_append]
    rfl
  · rw [pathDepth_append, pathDepth_append]
    rfl

theorem join_ne_root (p k : String) (hk : k ≠ "") : join p k ≠ "/" := by
  have hkl : k.length ≠ 0 := by
    intro h0
    apply hk
    cases k with
    | mk l =>
      cases l with
      | nil => rfl
      | cons c cs => simp [String.length] at h0
  intro h
  have hlen := congrArg String.length h
  unfold join at hlen
  split at hlen <;> simp [String.length_append] at hlen <;> omega

/-! ## Behaviour of the `max_depth` iterators at the fold boundary -/

theorem mdObj_ne_nil (sym : String) (obj : HObj) (path : String) (d : Nat)
    (hd : pathDepth path ≥ d) : mdObj sym obj path d ≠ [] := by
  cases obj with
  | dataset a bd => simp [mdObj]
  | group a ch =>
    simp only [mdObj]
    rw [if_pos hd]
    split <;> simp

theorem mdForest_eq_nil_iff (sym : String) (f : HForest) (path : String) (d : Nat)
    (hp : path ≠ "/") (hd : d ≤ pathDepth path + 1) :
    (mdForest sym f path d = [] ↔ f = .nil) := by
  cases f with
  | nil => simp [mdForest]
  | cons k o rest =>
    constructor
    · intro h
      exfalso
      simp only [mdForest, List.append_eq_nil] at h
      apply mdObj_ne_nil sym o (join path k) d _ h.1
      rw [pathDepth_join, if_neg hp]
      omega
    · intro h
      exact absurd h (by intro hc; cases hc)

/-! ## C1: unconditional folding under `max_depth` -/

/-- C1 counterexample: with only `maxDepth` set, the traversal does
*not* emit an empty group at depth `>= maxDepth` as
`path + foldSymbol`: for a file holding the single empty group `/g`
and `max_depth = 1`, `getdatasets` returns the bare `"/g"` and no
marker `"/g/..."` appears. -/
theorem getdatasets_maxdepth_bare_empty_group :
    getdatasets c1file "/" (some 1) [] "/..." = .ok ["/g"]
      ∧ ("/g" ++ "/...") ∉ ["/g"] :=
  ⟨rfl, by decide⟩

/-- C1 (amended): a group reached at depth `>= maxDepth` is never
descended, but the marker is conditional in the `maxDepth`-only
specialization: the group is emitted as `path + foldSymbol` exactly
when it has at least one child and as the bare `path` when it is
empty.  In the combined `fold`+`maxDepth` specialization the marker
is unconditional. -/
theorem getdatasets_maxdepth_marker_iff_nonempty (sym : String) (fold : List String)
    (key : String) (a : List (String × Val)) (ch rest : HForest) (pre : String) (d : Nat)
    (hd : pathDepth (join pre key) ≥ d) (hk : key ≠ "") :
    (ch = .nil →
      mdForest sym (.cons key (.group a ch) rest) pre d
        = join pre key :: mdForest sym rest pre d)
    ∧ (ch ≠ .nil →
      mdForest sym (.cons key (.group a ch) rest) pre d
        = (join pre key ++ sym) :: mdForest sym rest pre d)
    ∧ (fmdForest sym fold (.cons key (.group a ch) rest) pre d
        = (join pre key ++ sym) :: fmdForest sym fold rest pre d) := by
  have hnil : mdForest sym ch (join pre key) (d + 1) = [] ↔ ch = .nil :=
    mdForest_eq_nil_iff sym ch (join pre key) (d + 1) (join_ne_root pre key hk) (by omega)
  refine ⟨fun h => ?_, fun h => ?_, ?_⟩
  · simp only [mdForest, mdObj]
    rw [if_pos hd, hnil.mpr h]
    simp
  · have hne : mdForest sym ch (join pre key) (d + 1) ≠ [] := fun hc => h (hnil.mp hc)
    have hlen : (mdForest sym ch (join pre key) (d + 1)).length > 0 :=
      List.length_pos.mpr hne
    simp only [mdForest, mdObj]
    rw [if_pos hd, if_pos hlen]
    simp
  · simp only [fmdForest, fmdObj]
    rw [if_pos hd]
    simp

/-- Witness for the amended C1 theorem at a concrete input (the C1
counterexample file: `pre = "/"`, `key = "g"`, empty subtree,
`max_depth = 1`). -/
theorem getdatasets_maxdepth_marker_iff_nonempty_witness :
    pathDepth (join "/" "g") ≥ 1 ∧ ("g" : String) ≠ "" ∧
    (HForest.nil = HForest.nil →
      mdForest "/..." (.cons "g" (.group [] .nil) .nil) "/" 1
        = join "/" "g" :: mdForest "/..." .nil "/" 1) :=
  ⟨by decide, by decide,
    (getdatasets_maxdepth_marker_iff_nonempty "/..." [] "g" [] .nil .nil "/" 1
      (by decide) (by decide)).1⟩

/-! ## C3: depth base of the `max_depth` folding -/

mutual
theorem mdObjRel_zero (sym : String) (obj : HObj) (path : String) (d : Nat) :
    mdObjRel sym 0 obj path d = mdObj sym obj path d := by
  cases obj with
  | dataset a bd => rfl
  | group a ch =>
    simp only [mdObjRel, mdObj, Nat.sub_zero,
      mdForestRel_zero sym ch path (d + 1), mdForestRel_zero sym ch path d]
theorem mdForestRel_zero (sym : String) (f : HForest) (pre : String) (d : Nat) :
    mdForestRel sym 0 f pre d = mdForest sym f pre d := by
  cases f with
  | nil => rfl
  | cons key obj rest =>
    simp only [mdForestRel, mdForest,
      mdObjRel_zero sym obj (join pre key) d, mdForestRel_zero sym rest pre d]
end

/-- C3 counterexample: for the non-top root `"/x"` (one component) and
`maxDepth = 2`, the group `/x/g` sits at depth `1` beyond the root, so
a root-relative traversal would descend to the dataset `/x/g/d`; the
code instead folds it (its *absolute* depth is `2`): the result is
`["/x/g/..."]` and `/x/g/d` is not emitted. -/
theorem getdatasets_absolute_depth_counterexample :
    getdatasets c3file "/x" (some 2) [] "/..." = .ok ["/x/g/..."]
      ∧ "/x/g/d" ∉ ["/x/g/..."]
      ∧ traverse_reldepth c3file "/x" (some 2) "/..." = .ok ["/x/g/d"] :=
  ⟨rfl, by decide, rfl⟩

/-- C3 (amended): the depth `getdatasets` folds on is the *absolute*
separator count `len(path.split("/")) - 1`, not the count beyond the
root; the two coincide exactly for the top root `"/"`, where the
traversal agrees with the spec-side root-relative reference
`traverse_reldepth` on every file, every `max_depth`, and every fold
symbol. -/
theorem getdatasets_reldepth_at_top_root (file : HObj) (max_depth : Option Nat) (sym : String) :
    traverse_reldepth file "/" max_depth sym = getdatasets file "/" max_depth [] sym := by
  unfold traverse_reldepth getdatasets
  cases hl : lookupPath file (mabspath "/") with
  | none => simp only [hl]
  | some obj =>
    cases obj with
    | dataset a bd => simp only [hl]
    | group a ch =>
      cases max_depth with
      | none => simp [hl, prepFold]
      | some d =>
        by_cases hd : d = 0
        · subst hd
          simp [hl, prepFold]
        · simp only [hl, prepFold, if_neg hd]
          have hn : (pathComponents (mabspath "/")).length = 0 := rfl
          rw [hn, mdForestRel_zero]
          simp [hd]

/-! ## C2: `shallow` versus the dtype and symmetric-key checks -/

/-- C2 counterexample: with `attrs=True, matching_dtype=True,
shallow=True`, comparing dataset `/d` of `c2a` (int body, one
attribute `x`) against `/d` of `c2b` (float body, attributes `x` and
an extra `y`) returns `True`: the body dtype mismatch and the b-side
extra attribute key are both missed, because the early `return True`
sits inside the first attribute loop.  Without `shallow` the same
comparison returns `False`. -/
theorem equal_shallow_skips_dtype_counterexample :
    equal c2a c2b "/d" none true true true false = .ok true
      ∧ equal c2a c2b "/d" none true true false false = .ok false
      ∧ lookupPath c2a "/d" = some (.dataset [("x", .varr ⟨.int, [], [1]⟩)] ⟨.int, [1], [5]⟩)
      ∧ lookupPath c2b "/d"
          = some (.dataset [("x", .varr ⟨.int, [], [2]⟩), ("y", .varr ⟨.int, [], [3]⟩)]
              ⟨.float, [1], [5]⟩)
      ∧ (⟨.int, [1], [5]⟩ : NDArr).dtype ≠ (⟨.float, [1], [5]⟩ : NDArr).dtype :=
  ⟨rfl, rfl, rfl, rfl, by decide⟩

/-- C2 (amended): under `shallow` with `attrs`, the dataset dtype
check and the symmetric attribute-key check only run when `a` carries
no attributes: with `a.attrs` empty, a body dtype mismatch (under
`matching_dtype`) still yields `False`; but as soon as `a.attrs` has a
first key that exists in `b.attrs` with equal dtype, `_equal` returns
`True` immediately, skipping the body dtype check and the b-side key
check. -/
theorem equal_shallow_dtype_check_only_without_attrs
    (aat bat : List (String × Val)) (ba bb : NDArr) (close : Bool)
    (hdt : ba.dtype ≠ bb.dtype) :
    (aat = [] →
      _equal (.dataset aat ba) (.dataset bat bb) true true true close = .ok false)
    ∧ (∀ key va vb rest dv, aat = (key, va) :: rest → bat.lookup key = some vb →
        vdtype va = .ok dv → vdtype vb = .ok dv →
        _equal (.dataset aat ba) (.dataset bat bb) true true true close = .ok true) := by
  constructor
  · intro h
    subst h
    cases bat with
    | nil => simp [_equal, HObj.attrs, _equal_attrs_loop, hdt]
    | cons kb bsb => simp [_equal, HObj.attrs, _equal_attrs_loop]
  · intro key va vb rest dv ha hlk hva hvb
    subst ha
    simp [_equal, HObj.attrs, _equal_attrs_loop, hlk, hva, hvb]

/-- Witness for the amended C2 theorem at the concrete attribute lists
and bodies of the counterexample files. -/
theorem equal_shallow_dtype_check_only_without_attrs_witness :
    _equal (.dataset [("x", .varr ⟨.int, [], [1]⟩)] ⟨.int, [1], [5]⟩)
      (.dataset [("x", .varr ⟨.int, [], [2]⟩), ("y", .varr ⟨.int, [], [3]⟩)] ⟨.float, [1], [5]⟩)
      true true true false = .ok true :=
  (equal_shallow_dtype_check_only_without_attrs
      [("x", .varr ⟨.int, [], [1]⟩)]
      [("x", .varr ⟨.int, [], [2]⟩), ("y", .varr ⟨.int, [], [3]⟩)]
      ⟨.int, [1], [5]⟩ ⟨.float, [1], [5]⟩ false (by decide)).2
    "x" (.varr ⟨.int, [], [1]⟩) (.varr ⟨.int, [], [2]⟩) [] .int rfl rfl rfl rfl

/-! ## C7: the regex rename scenario -/

/-- C7: with rename pair `("/run_", "/job_")` under `regex=True`, file
`a` holding `/run_1/result` and file `b` holding `/job_1/result` with
equal content, `compare_rename` reports an empty primary diff (neither
path under `"->"`/`"<-"`) and lists `/run_1/result` as unchanged on
the renamed A-side (`/job_1/result` on the B-side). -/
theorem compare_rename_regex_scenario :
    compare_rename c7a c7b (some [("/run_", "/job_")]) none none true false false true true
      none [] false false "/...u" "/...v"
      = .ok (⟨[], [], [], [], none⟩, ⟨[], ["/run_1/result"]⟩, ⟨[], ["/job_1/result"]⟩) := rfl

/-! ## C8: float comparison is unconditionally closeness-based -/

/-- C8: for two datasets whose element dtypes are both floating-point
and whose shapes (and data lengths) agree, `_equal_value` returns
exactly the `np.allclose` verdict (`|a-b| <= atol + rtol*|b|` with
`atol=1e-8`, `rtol=1e-5`), whether or not the `close` option is set. -/
theorem equal_value_float_allclose (da db : NDArr) (close : Bool)
    (hda : da.dtype = .float) (hdb : db.dtype = .float)
    (hs : da.shape = db.shape) (hl : da.data.length = db.data.length) :
    _equal_value (.varr da) (.varr db) close = .ok (allclose da.data db.data) := by
  simp only [_equal_value, NDArr.size, hda, hdb, hs, hl]
  cases close <;> simp

/-- Witness for C8: the spec's scenario 3, `1.0` against
`1.0 + 1e-9`, where the closeness verdict is `True` for both values of
`close`. -/
theorem equal_value_float_allclose_witness :
    _equal_value (.varr ⟨.float, [1], [1]⟩) (.varr ⟨.float, [1], [1 + 1/1000000000]⟩) false
      = .ok (allclose [1] [1 + 1/1000000000])
    ∧ _equal_value (.varr ⟨.float, [1], [1]⟩) (.varr ⟨.float, [1], [1 + 1/1000000000]⟩) true
      = .ok (allclose [1] [1 + 1/1000000000])
    ∧ allclose [1] [1 + 1/1000000000] = true :=
  ⟨equal_value_float_allclose ⟨.float, [1], [1]⟩ ⟨.float, [1], [1 + 1/1000000000]⟩ false
      rfl rfl rfl rfl,
   equal_value_float_allclose ⟨.float, [1], [1]⟩ ⟨.float, [1], [1 + 1/1000000000]⟩ true
      rfl rfl rfl rfl,
   by
    norm_num [allclose, atol, rtol]
    rw [abs_of_nonneg (by norm_num : (0 : ℚ) ≤ 1 / 1000000000),
        abs_of_nonneg (by norm_num : (0 : ℚ) ≤ 1000000001 / 1000000000)]
    norm_num⟩

/-! ## C9: fold markers surviving `_compare_paths` -/

/-- C9: at the failing input (both files hold datasets `/g1/x` and
`/g2/y`; `fold=["/g1","/g2"]`), the marker-removal loop of
`_compare_paths` removes the first fold marker but — because it
mutates the list it is iterating — skips and keeps the second marker
`"/g2"+symbol` in both selected lists, and reports only `/g1` as
folded.  `compare` then hands the surviving marker to `equal`, which
raises (`OSError`): the whole comparison errors instead of excluding
both folded groups, contradicting the docstring "Folded groups are
not compared in any way!". -/
theorem compare_fold_marker_leak :
    _compare_paths c9file c9file none none true none ["/g1", "/g2"] "/...u"
        = .ok ⟨["/g2/...u"], ["/g2/...u"], ["/g1"], ["/g1"]⟩
      ∧ compare c9file c9file none none true false false false none ["/g1", "/g2"] true false
          "/...u" = .error "OSError: source_dataset not in source" :=
  ⟨rfl, rfl⟩

/-! ## C4: the four lists of `compare` partition the selected paths -/

theorem mem_insertStr (x a : String) (l : List String) :
    a ∈ insertStr x l ↔ a = x ∨ a ∈ l := by
  induction l with
  | nil => simp [insertStr]
  | cons y ys ih =>
    simp only [insertStr]
    split
    · simp
    · simp only [List.mem_cons, ih]
      tauto

theorem mem_sortStr (a : String) (l : List String) : a ∈ sortStr l ↔ a ∈ l := by
  induction l with
  | nil => simp [sortStr]
  | cons x xs ih =>
    show a ∈ insertStr x (sortStr xs) ↔ _
    rw [mem_insertStr]
    simp [ih]

theorem mem_np_setdiff1d (x : String) (a b : List String) :
    x ∈ np_setdiff1d a b ↔ x ∈ a ∧ x ∉ b := by
  unfold np_setdiff1d
  rw [mem_sortStr]
  simp [List.mem_filter]

theorem mem_np_intersect1d (x : String) (a b : List String) :
    x ∈ np_intersect1d a b ↔ x ∈ a ∧ x ∈ b := by
  unfold np_intersect1d
  rw [mem_sortStr]
  simp [List.mem_filter]

theorem compareLoop_ok_mem (a b : HObj) (att mdt sh cl : Bool) (l nel eql : List String)
    (h : compareLoop a b att mdt sh cl l = .ok (nel, eql)) (x : String) :
    (x ∈ nel ↔ x ∈ l ∧ equal a b x none att mdt sh cl = .ok false)
    ∧ (x ∈ eql ↔ x ∈ l ∧ equal a b x none att mdt sh cl = .ok true) := by
  induction l generalizing nel eql with
  | nil =>
    simp only [compareLoop, Except.ok.injEq, Prod.mk.injEq] at h
    obtain ⟨h1, h2⟩ := h
    subst h1
    subst h2
    simp
  | cons p rest ih =>
    simp only [compareLoop] at h
    cases hv : equal a b p none att mdt sh cl with
    | error e => rw [hv] at h; exact absurd h (by simp)
    | ok v =>
      rw [hv] at h
      cases hr : compareLoop a b att mdt sh cl rest with
      | error e => rw [hr] at h; exact absurd h (by simp)
      | ok pr =>
        rw [hr] at h
        obtain ⟨nel', eql'⟩ := pr
        have ihm := ih nel' eql' hr
        cases v with
        | true =>
          simp only [if_pos] at h
          obtain ⟨h1, h2⟩ := Prod.mk.injEq .. ▸ (Except.ok.injEq .. ▸ h :)
          subst h1
          subst h2
          constructor
          · rw [ihm.1]
            constructor
            · intro ⟨hm, hveq⟩
              exact ⟨List.mem_cons_of_mem p hm, hveq⟩
            · intro ⟨hm, hveq⟩
              rcases List.mem_cons.mp hm with hx | hx
              · subst hx
                rw [hv] at hveq
                exact absurd hveq (by simp)
              · exact ⟨hx, hveq⟩
          · simp only [List.mem_cons, ihm.2]
            constructor
            · intro hc
              rcases hc with hx | ⟨hm, hveq⟩
              · subst hx
                exact ⟨Or.inl rfl, hv⟩
              · exact ⟨Or.inr hm, hveq⟩
            · intro ⟨hm, hveq⟩
              rcases hm with hx | hx
              · exact Or.inl hx
              · exact Or.inr ⟨hx, hveq⟩
        | false =>
          simp only [Bool.false_eq_true, if_neg] at h
          obtain ⟨h1, h2⟩ := Prod.mk.injEq .. ▸ (Except.ok.injEq .. ▸ h :)
          subst h1
          subst h2
          constructor
          · simp only [List.mem_cons, ihm.1]
            constructor
            · intro hc
              rcases hc with hx | ⟨hm, hveq⟩
              · subst hx
                exact ⟨Or.inl rfl, hv⟩
              · exact ⟨Or.inr hm, hveq⟩
            · intro ⟨hm, hveq⟩
              rcases hm with hx | hx
              · exact Or.inl hx
              · exact Or.inr ⟨hx, hveq⟩
          · rw [ihm.2]
            constructor
            · intro ⟨hm, hveq⟩
              exact ⟨List.mem_cons_of_mem p hm, hveq⟩
            · intro ⟨hm, hveq⟩
              rcases List.mem_cons.mp hm with hx | hx
              · subst hx
                rw [hv] at hveq
                exact absurd hveq (by simp)
              · exact ⟨hx, hveq⟩

theorem compareLoop_ok_covers (a b : HObj) (att mdt sh cl : Bool) (l nel eql : List String)
    (h : compareLoop a b att mdt sh cl l = .ok (nel, eql)) (x : String) (hx : x ∈ l) :
    equal a b x none att mdt sh cl = .ok false ∨ equal a b x none att mdt sh cl = .ok true := by
  induction l generalizing nel eql with
  | nil => cases hx
  | cons p rest ih =>
    simp only [compareLoop] at h
    cases hv : equal a b p none att mdt sh cl with
    | error e => rw [hv] at h; exact absurd h (by simp)
    | ok v =>
      rw [hv] at h
      cases hr : compareLoop a b att mdt sh cl rest with
      | error e => rw [hr] at h; exact absurd h (by simp)
      | ok pr =>
        rcases List.mem_cons.mp hx with hx1 | hx1
        · subst hx1
          cases v with
          | true => exact Or.inr hv
          | false => exact Or.inl hv
        · exact ih pr.1 pr.2 (by rw [hr]) hx1

/-- C4: for every pair of files and every pair of explicitly selected
path lists (no renaming, no folding), whenever `compare` succeeds its
four lists `"->"`, `"<-"`, `"!="`, `"=="` are pairwise disjoint, and
their union is exactly the union of the two selected path lists. -/
theorem compare_partition (a b : HObj) (pa pb : List String)
    (att mdt sh od lf cl : Bool) (sym : String) (res : CompareResult)
    (h : compare a b (some pa) (some pb) att mdt sh od none [] lf cl sym = .ok res) :
    (res.toA.Disjoint res.toB ∧ res.toA.Disjoint res.ne ∧ res.toA.Disjoint res.eq
      ∧ res.toB.Disjoint res.ne ∧ res.toB.Disjoint res.eq ∧ res.ne.Disjoint res.eq)
    ∧ (∀ x, (x ∈ res.toA ∨ x ∈ res.toB ∨ x ∈ res.ne ∨ x ∈ res.eq) ↔ (x ∈ pa ∨ x ∈ pb)) := by
  have hcp : _compare_paths a b (some pa) (some pb) (if od then false else att) none [] sym
      = .ok ⟨pa, pb, [], []⟩ := rfl
  rw [compare, hcp] at h
  simp only at h
  cases hr : compareLoop a b att mdt sh cl (np_intersect1d pa pb) with
  | error e => rw [hr] at h; exact absurd h (by simp)
  | ok pr =>
    rw [hr] at h
    obtain ⟨nel, eql⟩ := pr
    have hres : res = ⟨np_setdiff1d pb pa, np_setdiff1d pa pb, nel, eql,
        if lf then some (np_unique ([] ++ [])) else none⟩ := by
      cases h.symm
      rfl
    subst hres
    have hm := fun x => compareLoop_ok_mem a b att mdt sh cl _ nel eql hr x
    constructor
    · refine ⟨?_, ?_, ?_, ?_, ?_, ?_⟩
      · intro x hx1 hx2
        rw [mem_np_setdiff1d] at hx1 hx2
        exact hx2.2 hx1.1
      · intro x hx1 hx2
        rw [mem_np_setdiff1d] at hx1
        rw [(hm x).1, mem_np_intersect1d] at hx2
        exact hx1.2 hx2.1.1
      · intro x hx1 hx2
        rw [mem_np_setdiff1d] at hx1
        rw [(hm x).2, mem_np_intersect1d] at hx2
        exact hx1.2 hx2.1.1
      · intro x hx1 hx2
        rw [mem_np_setdiff1d] at hx1
        rw [(hm x).1, mem_np_intersect1d] at hx2
        exact hx1.2 hx2.1.2
      · intro x hx1 hx2
        rw [mem_np_setdiff1d] at hx1
        rw [(hm x).2, mem_np_intersect1d] at hx2
        exact hx1.2 hx2.1.2
      · intro x hx1 hx2
        rw [(hm x).1] at hx1
        rw [(hm x).2] at hx2
        rw [hx1.2] at hx2
        exact absurd hx2.2 (by simp)
    · intro x
      constructor
      · intro hc
        rcases hc with hx | hx | hx | hx
        · rw [mem_np_setdiff1d] at hx
          exact Or.inr hx.1
        · rw [mem_np_setdiff1d] at hx
          exact Or.inl hx.1
        · rw [(hm x).1, mem_np_intersect1d] at hx
          exact Or.inl hx.1.1
        · rw [(hm x).2, mem_np_intersect1d] at hx
          exact Or.inl hx.1.1
      · intro hc
        by_cases hpa : x ∈ pa <;> by_cases hpb : x ∈ pb
        · have hib : x ∈ np_intersect1d pa pb := (mem_np_intersect1d x pa pb).mpr ⟨hpa, hpb⟩
          rcases compareLoop_ok_covers a b att mdt sh cl _ nel eql hr x hib with hveq | hveq
          · exact Or.inr (Or.inr (Or.inl ((hm x).1.mpr ⟨hib, hveq⟩)))
          · exact Or.inr (Or.inr (Or.inr ((hm x).2.mpr ⟨hib, hveq⟩)))
        · exact Or.inr (Or.inl ((mem_np_setdiff1d x pa pb).mpr ⟨hpa, hpb⟩))
        · exact Or.inl ((mem_np_setdiff1d x pb pa).mpr ⟨hpb, hpa⟩)
        · rcases hc with hx | hx
          · exact absurd hx hpa
          · exact absurd hx hpb

/-- Witness for C4 at a concrete input: files `c4a` (`/u`, `/v`) and
`c4b` (`/v`, `/w`) with the selected lists `["/u","/v"]` and
`["/v","/w"]`; `compare` succeeds and the partition property holds. -/
theorem compare_partition_witness :
    compare c4a c4b (some ["/u", "/v"]) (some ["/v", "/w"]) true false false false none []
        false false "/...u" = .ok ⟨["/w"], ["/u"], ["/v"], [], none⟩
    ∧ ((CompareResult.mk ["/w"] ["/u"] ["/v"] [] none).toA.Disjoint
          (CompareResult.mk ["/w"] ["/u"] ["/v"] [] none).toB
        ∧ (CompareResult.mk ["/w"] ["/u"] ["/v"] [] none).toA.Disjoint
            (CompareResult.mk ["/w"] ["/u"] ["/v"] [] none).ne
        ∧ (CompareResult.mk ["/w"] ["/u"] ["/v"] [] none).toA.Disjoint
            (CompareResult.mk ["/w"] ["/u"] ["/v"] [] none).eq
        ∧ (CompareResult.mk ["/w"] ["/u"] ["/v"] [] none).toB.Disjoint
            (CompareResult.mk ["/w"] ["/u"] ["/v"] [] none).ne
        ∧ (CompareResult.mk ["/w"] ["/u"] ["/v"] [] none).toB.Disjoint
            (CompareResult.mk ["/w"] ["/u"] ["/v"] [] none).eq
        ∧ (CompareResult.mk ["/w"] ["/u"] ["/v"] [] none).ne.Disjoint
            (CompareResult.mk ["/w"] ["/u"] ["/v"] [] none).eq)
    ∧ (∀ x, (x ∈ (CompareResult.mk ["/w"] ["/u"] ["/v"] [] none).toA
          ∨ x ∈ (CompareResult.mk ["/w"] ["/u"] ["/v"] [] none).toB
          ∨ x ∈ (CompareResult.mk ["/w"] ["/u"] ["/v"] [] none).ne
          ∨ x ∈ (CompareResult.mk ["/w"] ["/u"] ["/v"] [] none).eq)
        ↔ (x ∈ ["/u", "/v"] ∨ x ∈ ["/v", "/w"])) :=
  have h : compare c4a c4b (some ["/u", "/v"]) (some ["/v", "/w"]) true false false false
      none [] false false "/...u" = .ok ⟨["/w"], ["/u"], ["/v"], [], none⟩ := rfl
  ⟨h, (compare_partition c4a c4b ["/u", "/v"] ["/v", "/w"] true false false false false false
      "/...u" ⟨["/w"], ["/u"], ["/v"], [], none⟩ h).1,
    (compare_partition c4a c4b ["/u", "/v"] ["/v", "/w"] true false false false false false
      "/...u" ⟨["/w"], ["/u"], ["/v"], [], none⟩ h).2⟩

/-! ## C5: literal rename pairs must be present -/

theorem literalResolve_missing (paths_a paths_b : List String) (ren : List (String × String))
    (pa pb : String) (hmem : (pa, pb) ∈ ren) (hmiss : pa ∉ paths_a ∨ pb ∉ paths_b) :
    literalResolve paths_a paths_b ren = .error "OSError: Renamed paths must be present" := by
  induction ren with
  | nil => cases hmem
  | cons pr rest ih =>
    obtain ⟨qa, qb⟩ := pr
    rcases List.mem_cons.mp hmem with he | he
    · injection he with h1 h2
      subst h1
      subst h2
      simp only [literalResolve]
      rcases hmiss with hm | hm
      · have hc : paths_a.contains pa = false := by
          simpa using hm
        rw [hc]
        rfl
      · have hc : paths_b.contains pb = false := by
          simpa using hm
        rw [hc]
        cases paths_a.contains pa <;> rfl
    · simp only [literalResolve]
      cases hca : paths_a.contains qa with
      | false => rfl
      | true =>
        cases hcb : paths_b.contains qb with
        | false => rfl
        | true =>
          rw [if_neg (by simp)]
          rw [ih he]

/-- C5: for every literal (non-regex) rename pair with either side
absent from the corresponding selected path list, `compare_rename`
raises `OSError("Renamed paths must be present")` and returns no
(partial) diff result — no value comparison is reached. -/
theorem compare_rename_literal_missing (a b : HObj) (pa_l pb_l : List String)
    (ren : List (String × String)) (pa pb : String) (att mdt sh od lf cl : Bool)
    (md : Option Nat) (sym sym2 : String)
    (hmem : (pa, pb) ∈ ren) (hmiss : pa ∉ pa_l ∨ pb ∉ pb_l) :
    compare_rename a b (some ren) (some pa_l) (some pb_l) att mdt sh false od md [] lf cl
      sym sym2 = .error "OSError: Renamed paths must be present" := by
  have hcp : _compare_paths a b (some pa_l) (some pb_l) (if od then false else att) md [] sym
      = .ok ⟨pa_l, pb_l, [], []⟩ := rfl
  rw [compare_rename, hcp]
  simp [literalResolve_missing pa_l pb_l ren pa pb hmem hmiss]

/-- Witness for C5: the single rename pair `("/q", "/q")` against
selected lists that only hold `"/p"`. -/
theorem compare_rename_literal_missing_witness :
    (("/q", "/q") ∈ [(("/q" : String), ("/q" : String))])
    ∧ ("/q" ∉ ["/p"] ∨ "/q" ∉ ["/p"])
    ∧ compare_rename c4a c4b (some [("/q", "/q")]) (some ["/p"]) (some ["/p"]) true false
        false false true none [] false false "/...u" "/...v"
        = .error "OSError: Renamed paths must be present" :=
  ⟨by decide, by decide,
    compare_rename_literal_missing c4a c4b ["/p"] ["/p"] [("/q", "/q")] "/q" "/q"
      true false false true false false none "/...u" "/...v" (by decide) (by decide)⟩

/-! ## C6: regex rename pairs are silently skipped when the rewrite is
absent -/

/-- C6: in the `regex=True` resolution of `compare_rename`, an A-path
matched by a pattern pair is rewritten to `pattern_b` plus the matched
suffix; if the rewritten path is in B's list the pair `(path_a,
rewritten)` is resolved, and if not the A-path is skipped without
error: the pair contributes no rename for it (`path_a` is not listed
as renamed by that pair). -/
theorem compare_rename_regex_skip (paths_a paths_b : List String) (pa pb path_a : String)
    (h1 : path_a ∈ paths_a) (h2 : strPre pa path_a = true) :
    ((pb ++ sdrop path_a pa.length) ∈ paths_b →
      (path_a, pb ++ sdrop path_a pa.length) ∈ regexResolvePair paths_a paths_b pa pb)
    ∧ ((pb ++ sdrop path_a pa.length) ∉ paths_b →
      (∀ q, (path_a, q) ∉ regexResolvePair paths_a paths_b pa pb)
      ∧ path_a ∉ (regexResolve paths_a paths_b [(pa, pb)]).map Prod.fst) := by
  constructor
  · intro hin
    unfold regexResolvePair
    rw [List.mem_filterMap]
    refine ⟨path_a, h1, ?_⟩
    have hc : paths_b.contains (pb ++ sdrop path_a pa.length) = true := by
      simpa using hin
    rw [h2, hc]
    rfl
  · intro hout
    have hnc : paths_b.contains (pb ++ sdrop path_a pa.length) = false := by
      simpa using hout
    have hmain : ∀ q, (path_a, q) ∉ regexResolvePair paths_a paths_b pa pb := by
      intro q hqin
      unfold regexResolvePair at hqin
      rw [List.mem_filterMap] at hqin
      obtain ⟨x, hx, hfx⟩ := hqin
      cases hp : strPre pa x with
      | false => rw [hp] at hfx; simp at hfx
      | true =>
        rw [hp] at hfx
        cases hcont : paths_b.contains (pb ++ sdrop x pa.length) with
        | false => rw [hcont] at hfx; simp at hfx
        | true =>
          rw [hcont] at hfx
          simp at hfx
          obtain ⟨hxa, hq⟩ := hfx
          subst hxa
          rw [hcont] at hnc
          cases hnc
    refine ⟨hmain, ?_⟩
    intro hmap
    rw [List.mem_map] at hmap
    obtain ⟨⟨x1, x2⟩, hx12, hfst⟩ := hmap
    simp only [regexResolve, List.append_nil] at hx12
    cases hfst
    exact hmain x2 hx12

/-- Witness for C6 at concrete lists: the pattern `("/run_",
"/job_")` matches `"/run_1/result"`; with `["/job_1/result"]` as the
B-list the pair resolves, and with an empty B-list the path is
silently skipped. -/
theorem compare_rename_regex_skip_witness :
    ("/run_1/result" ∈ ["/run_1/result"])
    ∧ strPre "/run_" "/run_1/result" = true
    ∧ (("/job_" ++ sdrop "/run_1/result" "/run_".length) ∈ ["/job_1/result"] →
        ("/run_1/result", "/job_" ++ sdrop "/run_1/result" "/run_".length)
          ∈ regexResolvePair ["/run_1/result"] ["/job_1/result"] "/run_" "/job_")
    ∧ (("/job_" ++ sdrop "/run_1/result" "/run_".length) ∉ ([] : List String) →
        (∀ q, ("/run_1/result", q) ∉ regexResolvePair ["/run_1/result"] [] "/run_" "/job_")
        ∧ "/run_1/result" ∉ (regexResolve ["/run_1/result"] [] [("/run_", "/job_")]).map
            Prod.fst) :=
  ⟨by decide, by decide,
    (compare_rename_regex_skip ["/run_1/result"] ["/job_1/result"] "/run_" "/job_"
      "/run_1/result" (by decide) (by decide)).1,
    (compare_rename_regex_skip ["/run_1/result"] [] "/run_" "/job_"
      "/run_1/result" (by decide) (by decide)).2⟩

/-! ## C10: `compare_allow` shallow copy and mutation -/

theorem allowLoop_untouched (paths : List String) (ret : List (String × Nat))
    (ks : List String) (h h2 : Heap) (hok : allowLoop paths ret ks h = .ok h2)
    (i : Nat) (hni : ∀ k ∈ ks, ret.lookup k ≠ some i) : h2 i = h i := by
  induction ks generalizing h with
  | nil =>
    simp only [allowLoop, Except.ok.injEq] at hok
    rw [hok]
  | cons k0 ks ih =>
    simp only [allowLoop] at hok
    cases hl0 : ret.lookup k0 with
    | none => rw [hl0] at hok; cases hok
    | some i0 =>
      rw [hl0] at hok
      have hne : i ≠ i0 := fun he => hni k0 (List.mem_cons_self k0 ks) (he ▸ hl0)
      rw [ih _ hok (fun k hk => hni k (List.mem_cons_of_mem _ hk))]
      simp [Heap.write, hne]

theorem allowLoop_ok (paths : List String) (ret : List (String × Nat)) (keys : List String)
    (h h2 : Heap) (hok : allowLoop paths ret keys h = .ok h2)
    (hn : (keys.map (fun k => ret.lookup k)).Nodup) :
    ∀ k i, k ∈ keys → ret.lookup k = some i → h2 i = removeAllowed (h i) paths := by
  induction keys generalizing h with
  | nil => intro k i hk; cases hk
  | cons k0 ks ih =>
    simp only [allowLoop] at hok
    have hn2 : (List.lookup k0 ret) ∉ ks.map (fun k3 => List.lookup k3 ret)
        ∧ (ks.map (fun k3 => List.lookup k3 ret)).Nodup := by
      rw [List.map_cons] at hn
      exact List.nodup_cons.mp hn
    intro k i hk hki
    cases hl0 : ret.lookup k0 with
    | none => rw [hl0] at hok; cases hok
    | some i0 =>
      rw [hl0] at hok
      rcases List.mem_cons.mp hk with he | he
      · have hkk : List.lookup k0 ret = some i := by rw [← he]; exact hki
        have hii : i0 = i := Option.some.inj (hl0.symm.trans hkk)
        subst hii
        have hnotin : ∀ k2 ∈ ks, ret.lookup k2 ≠ some i0 := by
          intro k2 hk2 hc
          apply hn2.1
          rw [hl0]
          exact List.mem_map.mpr ⟨k2, hk2, hc⟩
        rw [allowLoop_untouched paths ret ks _ h2 hok i0 hnotin]
        simp [Heap.write]
      · have hne : i ≠ i0 := by
          intro heq
          apply hn2.1
          rw [hl0, ← heq]
          exact List.mem_map.mpr ⟨k, he, hki⟩
        have hih := ih _ hok hn2.2 k i he hki
        rw [hih]
        simp [Heap.write, hne]

/-- C10: `compare_allow` returns a shallow copy of the comparison
dictionary: the returned dictionary maps every key to the very same
list object (reference) as the input, and removing the allowed paths
mutates those shared objects — after the call, the list reached
through the *input* dictionary under each processed key equals its old
value with the allowed paths removed. -/
theorem compare_allow_shallow_copy_mutates (h : Heap) (dict : List (String × Nat))
    (paths keys : List String) (ret : List (String × Nat)) (h2 : Heap)
    (hok : compare_allow h dict paths keys none = .ok (ret, h2))
    (hn : (keys.map (fun k => dict.lookup k)).Nodup) :
    ret = dict
    ∧ ∀ k i, k ∈ keys → dict.lookup k = some i → h2 i = removeAllowed (h i) paths := by
  have hok2 : (match allowLoop paths dict keys h with
      | Except.error e => (Except.error e : Except String (List (String × Nat) × Heap))
      | Except.ok hh => Except.ok (dict, hh)) = Except.ok (ret, h2) := hok
  cases hal : allowLoop paths dict keys h with
  | error e => rw [hal] at hok2; cases hok2
  | ok hh =>
    rw [hal] at hok2
    simp only [Except.ok.injEq, Prod.mk.injEq] at hok2
    obtain ⟨hr, hh2⟩ := hok2
    subst hr
    subst hh2
    exact ⟨rfl, allowLoop_ok paths dict keys h hh hal hn⟩

/-- Witness for C10: the dictionary of the repository's
`test_compare_allow` (list object `3` under `"!="` holding
`"/foo/bar"`); after `compare_allow` the returned dictionary is the
same key-to-object map, and the object referenced by the *input*
dictionary under `"!="` has been emptied. -/
theorem compare_allow_shallow_copy_mutates_witness :
    ((["->", "<-", "!="].map (fun k => c10dict.lookup k)).Nodup)
    ∧ (compare_allow c10heap c10dict ["/foo/bar"] ["->", "<-", "!="] none).map Prod.fst
        = .ok c10dict
    ∧ (compare_allow c10heap c10dict ["/foo/bar"] ["->", "<-", "!="] none).map
        (fun r => r.2 3) = .ok (removeAllowed (c10heap 3) ["/foo/bar"])
    ∧ removeAllowed (c10heap 3) ["/foo/bar"] = [] := by
  obtain ⟨R, H, hok⟩ : ∃ R H,
      compare_allow c10heap c10dict ["/foo/bar"] ["->", "<-", "!="] none = .ok (R, H) :=
    ⟨_, _, rfl⟩
  have hth := compare_allow_shallow_copy_mutates c10heap c10dict ["/foo/bar"]
    ["->", "<-", "!="] R H hok (by decide)
  refine ⟨by decide, ?_, ?_, by decide⟩
  · rw [hok]
    simp [Except.map, hth.1]
  · rw [hok]
    simp only [Except.map]
    rw [hth.2 "!=" 3 (by decide) (by decide)]

end G5
